import Mathlib

/-!
Verification development for `LinkAssetstoMissionRelease.py`.

Python strings are modelled as `List Char` (`PyStr`).  Python's `re` class
`\s` and `str.strip` whitespace are modelled by the six ASCII whitespace
characters (the Unicode extras are irrelevant to the inputs considered
here).  `str.splitlines` is modelled for the line boundaries `\n`, `\r`,
`\r\n`, `\x0b`, `\x0c` (the rarer Unicode boundaries are omitted).
-/

abbrev PyStr := List Char

def pystr (s : String) : PyStr := s.toList

/-- Python whitespace (the ASCII part of `\s` / `str.strip`). -/
def pyWs (c : Char) : Bool :=
  c = ' ' || c = '\t' || c = '\n' || c = '\r' || c = '\x0b' || c = '\x0c'

/-- `str.lstrip()` -/
def pyLstrip (s : PyStr) : PyStr := s.dropWhile pyWs

/-- `str.rstrip()` -/
def pyRstrip : PyStr → PyStr
  | [] => []
  | c :: t =>
    let r := pyRstrip t
    if r = [] && pyWs c then [] else c :: r

/-- `str.strip()` -/
def pyStrip (s : PyStr) : PyStr := pyLstrip (pyRstrip s)

/-- line-boundary characters handled by the `str.splitlines` model -/
def isLineBreak (c : Char) : Bool :=
  c = '\n' || c = '\r' || c = '\x0b' || c = '\x0c'

def splitAux : List Char → List Char → List (List Char)
  | acc, [] => [acc.reverse]
  | acc, '\r' :: '\n' :: rest =>
    acc.reverse :: (if rest.isEmpty then [] else splitAux [] rest)
  | acc, c :: rest =>
    if isLineBreak c then
      acc.reverse :: (if rest.isEmpty then [] else splitAux [] rest)
    else splitAux (c :: acc) rest

/-- `str.splitlines()` -/
def pySplitlines (s : PyStr) : List PyStr :=
  if s = [] then [] else splitAux [] s

/-!
## The bullet-tree parser (`extract_pairs` and helpers)

the pattern of `bullet_re` is `^(?:-|\*)\s+(?P<cat>.+?)\s*$` and the
pattern of `child_re` is `^\s{2,}(?:-|\*)\s+(?P<name>.+?)\s*$`.

`matchBullet l` models `bullet_re.match(l)`, returning the `cat` capture
group on success: the line must start with `-` or `*`, followed by at
least one whitespace character, followed by a remainder that is non-empty
after discarding whitespace; the non-greedy capture together with the
trailing `\s*$` makes the captured group the remainder with trailing
whitespace removed.
-/

def matchBullet : PyStr → Option PyStr
  | [] => none
  | c :: rest =>
    if (c = '-' ∨ c = '*') ∧ rest.takeWhile pyWs ≠ [] ∧
        rest.dropWhile pyWs ≠ [] then
      some (pyRstrip (rest.dropWhile pyWs))
    else none

/-- `child_re.match`: `\s{2,}` then the same bullet shape; the leading run
of whitespace must have length at least 2 and be followed by the bullet. -/
def matchChild (l : PyStr) : Option PyStr :=
  if (l.takeWhile pyWs).length ≥ 2 then matchBullet (l.dropWhile pyWs)
  else none

/-- The plain-text loop of `extract_pairs` (lines 190–203 of the source):
for each raw line, `line = raw.rstrip()`; a `bullet_re` match sets
`current_cat` to the stripped capture; otherwise a `child_re` match, when
`current_cat` is truthy, appends `(current_cat, name.strip())` when the
stripped name is truthy. -/
def textLoop : Option PyStr → List PyStr → List (PyStr × PyStr)
  | _, [] => []
  | cur, raw :: rest =>
    let line := pyRstrip raw
    match matchBullet line with
    | some cap => textLoop (some (pyStrip cap)) rest
    | none =>
      match matchChild line, cur with
      | some cap, some c =>
        if c ≠ [] then
          if pyStrip cap ≠ [] then (c, pyStrip cap) :: textLoop cur rest
          else textLoop cur rest
        else textLoop cur rest
      | _, _ => textLoop cur rest

/-- ADF (structured-document) nodes: the code only ever reads a node's
`"type"`, its `"content"` list and (for text fragments) its `"text"`
entry, so a node is modelled by exactly those three fields; `text = none`
models a dict without a `"text"` key. -/
inductive AdfNode where
  | mk (type : String) (content : List AdfNode) (text : Option PyStr)

def AdfNode.type : AdfNode → String
  | .mk t _ _ => t

def AdfNode.content : AdfNode → List AdfNode
  | .mk _ c _ => c

def AdfNode.text : AdfNode → Option PyStr
  | .mk _ _ t => t

/-- `_adf_text_from_paragraph`: concatenate the `"text"` of the `"text"`
fragments of a paragraph node, then strip; non-paragraph nodes give `""`. -/
def adfTextFromParagraph (n : AdfNode) : PyStr :=
  if n.type ≠ "paragraph" then []
  else pyStrip ((n.content.filterMap fun frag =>
    if frag.type = "text" then frag.text else none).flatten)

/-- the inner name-searching loop of `_adf_pairs_from_list`:
`name = ""`, then for each child that is a paragraph, `name` becomes its
text and the loop breaks as soon as `name` is truthy. -/
def nameLoop : PyStr → List AdfNode → PyStr
  | name, [] => name
  | name, ch :: rest =>
    if ch.type = "paragraph" then
      let n := adfTextFromParagraph ch
      if n ≠ [] then n else nameLoop n rest
    else nameLoop name rest

/-- `_adf_pairs_from_list` (lines 130–175): each `listItem` of a
`bulletList` whose first paragraph child has truthy text `cat`
contributes, for every nested `bulletList` child and every `listItem`
inside it, the pair `(cat, name)` whenever the name found by `nameLoop`
is truthy. -/
def adfPairsFromList (listNode : AdfNode) : List (PyStr × PyStr) :=
  if listNode.type ≠ "bulletList" then []
  else listNode.content.flatMap fun li =>
    if li.type ≠ "listItem" then []
    else
      let children := li.content
      if children.isEmpty then []
      else
        match (children.find? fun ch => ch.type = "paragraph").map
            adfTextFromParagraph with
        | none => []
        | some cat =>
          if cat = [] then []
          else children.flatMap fun ch =>
            if ch.type ≠ "bulletList" then []
            else ch.content.flatMap fun subLi =>
              if subLi.type ≠ "listItem" then []
              else
                let name := nameLoop [] subLi.content
                if name ≠ [] then [(cat, name)] else []

/-- The `description` value handed to `extract_pairs`: an ADF dict
(the code only reads its `"content"` list, `desc.get("content") or []`),
a plain string, or `Desc.none`, which models `None` and every other
non-dict, non-string value (all of which the code coerces to `""`). -/
inductive Desc where
  | adf (content : List AdfNode)
  | txt (s : PyStr)
  | none

/-- `extract_pairs` (lines 177–203). -/
def extract_pairs : Desc → List (PyStr × PyStr)
  | .adf content =>
    content.flatMap fun node =>
      if node.type = "bulletList" then adfPairsFromList node else []
  | .txt s => textLoop Option.none (pySplitlines s)
  | .none => textLoop Option.none (pySplitlines [])

/-!
## Catalog lookup, link derivation and the per-issue reconciliation loop

`aql_lookup` posts an AQL query and dies on a non-200 status; otherwise it
returns `objs[0]` of `data.get("objectEntries") or []`, or `None` when the
list is empty.  The only field of the returned object that `main` reads is
`"id"`, so a catalog response is modelled by its HTTP status together with
the list of entry ids (kept opaque as strings, as the f-string in
`asset_url` interpolates whatever JSON value arrived).
-/

structure CatalogResp where
  status : Nat
  entries : List PyStr

def JIRA_SITE : PyStr := pystr "https://cnhpd.atlassian.net"

/-- `asset_url`: `f"{JIRA_SITE}/jira/servicedesk/assets/objects/{object_id}"` -/
def asset_url (object_id : PyStr) : PyStr :=
  JIRA_SITE ++ pystr "/jira/servicedesk/assets/objects/" ++ object_id

/-- `title = f"{cat} - {nm}"` (line 236) -/
def mkTitle (cat nm : PyStr) : PyStr := cat ++ pystr " - " ++ nm

/-- The per-issue pair loop of `main` (lines 229–244), with the external
world supplied as functions: `catalog` gives the AQL response for a pair,
`createStatus` the HTTP status of `create_remote_link` for a title/url.
Returns `(created links in order, final existing set, fatal error)`.
A non-200 catalog status or a create status outside {200, 201} models
`die` (`sys.exit(1)`): the loop stops and nothing later is attempted. -/
def processPairs (catalog : PyStr × PyStr → CatalogResp)
    (createStatus : PyStr → PyStr → Nat) :
    List (PyStr × PyStr) → List (PyStr × PyStr) →
      List (PyStr × PyStr) × List (PyStr × PyStr) × Option String
  | [], existing => ([], existing, none)
  | (cat, nm) :: rest, existing =>
    let resp := catalog (cat, nm)
    if resp.status ≠ 200 then ([], existing, some "Assets AQL search failed")
    else
      match resp.entries.head? with
      | none => processPairs catalog createStatus rest existing
      | some oid =>
        let url_ := asset_url oid
        let title := mkTitle cat nm
        if (title, url_) ∈ existing then
          processPairs catalog createStatus rest existing
        else if createStatus title url_ ≠ 200 ∧ createStatus title url_ ≠ 201 then
          ([], existing, some "Failed to create remote link")
        else
          let r := processPairs catalog createStatus rest (existing ++ [(title, url_)])
          ((title, url_) :: r.1, r.2.1, r.2.2)

/-- The (title, url) pairs derivable from the parsed pairs under a given
catalog: a pair contributes exactly when its lookup finds an entry. -/
def derivedPairs (catalog : PyStr × PyStr → CatalogResp)
    (pairs : List (PyStr × PyStr)) : List (PyStr × PyStr) :=
  pairs.filterMap fun p =>
    (catalog p).entries.head?.map fun oid => (mkTitle p.1 p.2, asset_url oid)

/-- Reconciliation as the specification words it: emit, in input order,
each derived pair not already present, adding each emitted pair to the
existing set so an in-batch duplicate is emitted at most once. -/
def dedupeNew (existing : List (PyStr × PyStr)) :
    List (PyStr × PyStr) → List (PyStr × PyStr)
  | [] => []
  | d :: rest =>
    if d ∈ existing then dedupeNew existing rest
    else d :: dedupeNew (existing ++ [d]) rest

/-!
## Issue scanner (`enhanced_search`) and the main loop

A scripted search response page carries the effective HTTP status (after
the GET→POST fallback, which is an HTTP-method detail outside the model),
the issues of the page, and the optional `nextPageToken`.  The token test
in the source is Python truthiness (`if not next_token`), so both an
absent token and an empty-string token stop the loop.
-/

structure SearchPage (α : Type) where
  status : Nat
  issues : List α
  next : Option PyStr

/-- `if not next_token` -/
def tokFalsy : Option PyStr → Bool
  | Option.none => true
  | some s => s.isEmpty

/-- `enhanced_search` (lines 50–63) over a finite script of page
responses, as the list of issues the generator yields (the issue payload
type `α` is irrelevant to the control flow): fetch a page; a non-200
status dies; otherwise yield the page's issues, then stop iff the token
is falsy. -/
def enhancedSearchIssues {α : Type} : List (SearchPage α) → Except String (List α)
  | [] => .ok []
  | p :: rest =>
    if p.status ≠ 200 then .error "Jira enhanced search failed"
    else if tokFalsy p.next then .ok p.issues
    else
      match enhancedSearchIssues rest with
      | .error e => .error e
      | .ok tail => .ok (p.issues ++ tail)

/-- The pages actually consumed: every page up to and including the first
page whose token is falsy. -/
def consumedPages {α : Type} : List (SearchPage α) → List (SearchPage α)
  | [] => []
  | p :: rest => if tokFalsy p.next then [p] else p :: consumedPages rest

/-- The scan as the claim states it: a page with no next-token *or with
zero issues* ends the scan (after yielding that page's issues). -/
def scanClaimC5 {α : Type} : List (SearchPage α) → List α
  | [] => []
  | p :: rest =>
    if p.issues.isEmpty || tokFalsy p.next then p.issues
    else p.issues ++ scanClaimC5 rest

/-!
## The full `main` loop

An `Issue` bundles an issue as the loop sees it: the fields returned by
the search, plus the scripted outcomes of the per-issue HTTP calls that
`main` may make (`get_issue_desc`, `list_remote_links`).  A missing field
(`fields.get(...)` returning `None`) is `Option.none`.
-/

structure Issue where
  key : PyStr
  proj : Option PyStr
  itype : Option PyStr
  istatus : Option PyStr
  descField : Desc
  fetchStatus : Nat
  fetchedDesc : Desc
  linksStatus : Nat
  links : List (PyStr × PyStr)

/-- Python truthiness of a description value: `None` (and the other
non-dict, non-string values `Desc.none` stands for) and `""` are falsy;
an ADF dict (which always carries at least its `"type"` key) is truthy. -/
def descFalsy : Desc → Bool
  | .txt s => s.isEmpty
  | .none => true
  | .adf _ => false

/-- the local re-check of line 218:
`if proj != "PREC" or itype != "Mission/Release" or status == "Validated (Complete)": continue` -/
def passesCheck (i : Issue) : Bool :=
  i.proj = some (pystr "PREC") && i.itype = some (pystr "Mission/Release")
    && i.istatus ≠ some (pystr "Validated (Complete)")

/-- `desc = fields.get("description") or get_issue_desc(key)` (line 221),
where `get_issue_desc` itself returns `... .get("description") or ""`. -/
def effDesc (i : Issue) : Desc :=
  if descFalsy i.descField then
    if descFalsy i.fetchedDesc then Desc.txt [] else i.fetchedDesc
  else i.descField

/-- The external world of one run: the scripted search pages, the catalog
response per (category, name) pair, and the status returned by remote-link
creation per (issue key, title, url). -/
structure World where
  pages : List (SearchPage Issue)
  catalog : PyStr × PyStr → CatalogResp
  createStatus : PyStr → PyStr → PyStr → Nat

/-- One iteration of the issue loop (lines 211–247).  Returns the links
created for this issue (tagged with its key), whether `total_scanned` was
incremented, and the fatal error if a call died.  `get_issue_desc` is
only called when the description field is falsy, and `list_remote_links`
only when pairs were extracted, mirroring the call sites. -/
def processIssue (w : World) (i : Issue) :
    List (PyStr × PyStr × PyStr) × Bool × Option String :=
  if ¬ passesCheck i then ([], false, none)
  else if descFalsy i.descField ∧ i.fetchStatus ≠ 200 then
    ([], false, some "Failed to read description")
  else
    let pairs := extract_pairs (effDesc i)
    if pairs.isEmpty then ([], false, none)
    else if i.linksStatus ≠ 200 then
      ([], false, some "Failed to list remote links")
    else
      let r := processPairs w.catalog (w.createStatus i.key) pairs i.links
      (r.1.map fun tu => (i.key, tu.1, tu.2), r.2.2.isNone, r.2.2)

/-- the issue loop over one page's issues, threading `total_scanned` -/
def runIssues (w : World) : List Issue → Nat →
    List (PyStr × PyStr × PyStr) × Nat × Option String
  | [], n => ([], n, none)
  | i :: rest, n =>
    let r := processIssue w i
    match r.2.2 with
    | some e => (r.1, n, some e)
    | none =>
      let n' := if r.2.1 then n + 1 else n
      let rr := runIssues w rest n'
      (r.1 ++ rr.1, rr.2.1, rr.2.2)

/-- The page-by-page drive of `main`: a page is fetched, a non-200 search
status dies, its issues are processed in order (any death aborts), and a
falsy token ends the loop, at which point the summary count is reported.
An exhausted script means the scripted world supplied no further
response. -/
def runPages (w : World) : List (SearchPage Issue) → Nat →
    List (PyStr × PyStr × PyStr) × Option Nat × Option String
  | [], n => ([], some n, none)
  | p :: ps, n =>
    if p.status ≠ 200 then ([], Option.none, some "Jira enhanced search failed")
    else
      let r := runIssues w p.issues n
      match r.2.2 with
      | some e => (r.1, Option.none, some e)
      | none =>
        if tokFalsy p.next then (r.1, some r.2.1, none)
        else
          let rr := runPages w ps r.2.1
          (r.1 ++ rr.1, rr.2.1, rr.2.2)

/-- `main` (lines 206–249): run the pages from a zero count.  The second
component is the count the final summary line reports
(`Done. Issues scanned: {total_scanned}`), present iff the loop ran to
completion. -/
def mainRun (w : World) :
    List (PyStr × PyStr × PyStr) × Option Nat × Option String :=
  runPages w w.pages 0

/-- the issues the scanner visits: all issues of all consumed pages -/
def visitedIssues (w : World) : List Issue :=
  (consumedPages w.pages).flatMap SearchPage.issues

/-!
## Claim-side definitions

`specScan` is the plain-text algorithm exactly as the specification words
it: scanning lines in order, an indentation-0 bullet line sets the
current category to its trimmed text; a bullet line indented by at least
two characters accepted by `indentOk` appends (current category, trimmed
name) when a category has been set and the trimmed name is non-empty;
every other line is ignored.  Instantiating `indentOk` with "space only"
gives the claim's literal "indentation ≥ 2 spaces"; instantiating it with
"any whitespace" gives the amended claim.
-/

/-- claim-side category line: a bullet marker at indentation 0, a
whitespace separator, and non-blank text; yields the trimmed text. -/
def specCat : PyStr → Option PyStr
  | [] => none
  | c :: rest =>
    if (c = '-' ∨ c = '*') ∧ rest.takeWhile pyWs ≠ [] ∧ pyStrip rest ≠ [] then
      some (pyStrip rest)
    else none

/-- claim-side child line: an indentation of length ≥ 2 all of whose
characters satisfy `indentOk`, then a bullet with non-blank text; yields
the trimmed name. -/
def specChild (indentOk : Char → Bool) (l : PyStr) : Option PyStr :=
  if (l.takeWhile pyWs).length ≥ 2 ∧ (l.takeWhile pyWs).all indentOk then
    specCat (l.dropWhile pyWs)
  else none

/-- the plain-text algorithm as the specification words it -/
def specScan (indentOk : Char → Bool) :
    Option PyStr → List PyStr → List (PyStr × PyStr)
  | _, [] => []
  | cur, l :: rest =>
    match specCat l with
    | some c => specScan indentOk (some c) rest
    | none =>
      match specChild indentOk l, cur with
      | some nm, some c => (c, nm) :: specScan indentOk cur rest
      | _, _ => specScan indentOk cur rest

/-!
## ADF document builders

Concrete node shapes used to state the structured-document properties:
a text fragment, a one-fragment paragraph, a name `listItem`, a nested
`bulletList` of names, and a top-level `listItem` holding a category
paragraph followed by exactly one nested list.
-/

def mkText (s : PyStr) : AdfNode := .mk "text" [] (some s)

def mkPara (s : PyStr) : AdfNode := .mk "paragraph" [mkText s] Option.none

def mkNameItem (s : PyStr) : AdfNode := .mk "listItem" [mkPara s] Option.none

def mkNameList (ns : List PyStr) : AdfNode :=
  .mk "bulletList" (ns.map mkNameItem) Option.none

def mkRowItem (r : PyStr × List PyStr) : AdfNode :=
  .mk "listItem" [mkPara r.1, mkNameList r.2] Option.none

def mkDoc (rows : List (PyStr × List PyStr)) : Desc :=
  .adf [.mk "bulletList" (rows.map mkRowItem) Option.none]


/-!
## Concrete sanity checks
-/

example : pySplitlines (pystr "a\nb") = [pystr "a", pystr "b"] := by decide
example : pySplitlines (pystr "a\n") = [pystr "a"] := by decide
example : pySplitlines (pystr "") = [] := by decide


/- end-to-end sanity check from the documented scenario -/
example :
    extract_pairs (.txt (pystr "- Displays\n  - 11100411\n- PCM Devices\n  - 217646000000000")) =
      [(pystr "Displays", pystr "11100411"),
       (pystr "PCM Devices", pystr "217646000000000")] := by decide

/- sanity: the two scans agree on the documented scenario -/
example :
    specScan (fun c => c = ' ') Option.none
        (pySplitlines (pystr "- Displays\n  - 11100411")) =
      [(pystr "Displays", pystr "11100411")] := by decide

/- the divergence driving claim C3: a tab-indented child bullet -/
example :
    extract_pairs (.txt (pystr "- C\n\t\t- N")) = [(pystr "C", pystr "N")] := by
  decide

example :
    specScan (fun c => c = ' ') Option.none (pySplitlines (pystr "- C\n\t\t- N")) =
      [] := by decide

example :
    specScan (fun _ => true) Option.none (pySplitlines (pystr "- C\n\t\t- N")) =
      [(pystr "C", pystr "N")] := by decide

/-!
## Lemmas about stripping and the line matchers
-/

lemma dropWhile_idem (p : Char → Bool) (l : List Char) :
    (l.dropWhile p).dropWhile p = l.dropWhile p := by
  induction l with
  | nil => rfl
  | cons a t ih =>
    by_cases h : p a
    · simpa [List.dropWhile, h] using ih
    · simp [List.dropWhile, h]

lemma pyRstrip_idem (l : PyStr) : pyRstrip (pyRstrip l) = pyRstrip l := by
  induction l with
  | nil => rfl
  | cons a t ih =>
    by_cases h : pyRstrip t = [] ∧ pyWs a
    · simp [pyRstrip, h.1, h.2]
    · have : ¬ (pyRstrip t = [] && pyWs a) = true := by
        simpa [Bool.and_eq_true, decide_eq_true_eq] using h
      simp only [pyRstrip, if_neg this]
      simp only [pyRstrip, ih, if_neg this]

lemma dropWhile_nil_of_pyRstrip_nil (l : PyStr) (h : pyRstrip l = []) :
    l.dropWhile pyWs = [] := by
  induction l with
  | nil => rfl
  | cons a t ih =>
    by_cases hc : pyRstrip t = [] ∧ pyWs a
    · simp [List.dropWhile, hc.2, ih hc.1]
    · simp [pyRstrip] at h
      exact absurd h hc

lemma dropWhile_pyRstrip_comm (l : PyStr) :
    (pyRstrip l).dropWhile pyWs = pyRstrip (l.dropWhile pyWs) := by
  induction l with
  | nil => rfl
  | cons a t ih =>
    by_cases h : pyWs a
    · by_cases hr : pyRstrip t = []
      · simp [pyRstrip, hr, h, List.dropWhile,
          dropWhile_nil_of_pyRstrip_nil t hr]
      · have : ¬ (pyRstrip t = [] && pyWs a) = true := by
          simp [hr]
        simp only [pyRstrip, if_neg this]
        simp [List.dropWhile, h, ih]
    · have : ¬ (pyRstrip t = [] && pyWs a) = true := by
        simp [h]
      simp only [pyRstrip, if_neg this]
      simp [List.dropWhile, h, pyRstrip, if_neg this]

lemma dropWhile_pyRstrip_ne_nil (l : PyStr) (h : pyRstrip l ≠ []) :
    (pyRstrip l).dropWhile pyWs ≠ [] := by
  induction l with
  | nil => exact absurd rfl h
  | cons a t ih =>
    by_cases hc : pyRstrip t = [] ∧ pyWs a
    · simp [pyRstrip, hc.1, hc.2] at h
    · have hne : ¬ (pyRstrip t = [] && pyWs a) = true := by
        simpa [Bool.and_eq_true, decide_eq_true_eq] using hc
      simp only [pyRstrip, if_neg hne] at h ⊢
      by_cases hw : pyWs a
      · have hr : pyRstrip t ≠ [] := by
          intro hnil; exact hc ⟨hnil, hw⟩
        simpa [List.dropWhile, hw] using ih hr
      · simp [List.dropWhile, hw]

lemma takeWhile_pyRstrip_eq (l : PyStr)
    (h : (pyRstrip l).dropWhile pyWs ≠ []) :
    (pyRstrip l).takeWhile pyWs = l.takeWhile pyWs := by
  induction l with
  | nil => rfl
  | cons a t ih =>
    by_cases hc : pyRstrip t = [] ∧ pyWs a
    · simp [pyRstrip, hc.1, hc.2] at h
    · have hne : ¬ (pyRstrip t = [] && pyWs a) = true := by
        simpa [Bool.and_eq_true, decide_eq_true_eq] using hc
      simp only [pyRstrip, if_neg hne] at h ⊢
      by_cases hw : pyWs a
      · have hr : pyRstrip t ≠ [] := fun hnil => hc ⟨hnil, hw⟩
        have h' : (pyRstrip t).dropWhile pyWs ≠ [] := by
          simpa [List.dropWhile, hw] using h
        simp [List.takeWhile, hw, ih h']
      · simp [List.takeWhile, hw]

lemma head_dropWhile_not (p : Char → Bool) (l : List Char) {c : Char}
    {t : List Char} (h : l.dropWhile p = c :: t) : p c = false := by
  induction l with
  | nil => simp [List.dropWhile] at h
  | cons a t' ih =>
    by_cases hp : p a
    · exact ih (by simpa [List.dropWhile, hp] using h)
    · simp only [List.dropWhile, hp] at h
      cases h
      simpa using hp

lemma matchBullet_some {l cap : PyStr} (h : matchBullet l = some cap) :
    cap ≠ [] ∧ pyStrip cap = cap := by
  match l with
  | [] => simp [matchBullet] at h
  | c :: rest =>
    rw [matchBullet] at h
    split at h
    · rename_i hc
      obtain ⟨-, -, hu⟩ := hc
      injection h with h
      subst h
      constructor
      · obtain ⟨d, u', hd⟩ : ∃ d u', rest.dropWhile pyWs = d :: u' := by
          cases hu' : rest.dropWhile pyWs with
          | nil => exact absurd hu' hu
          | cons d u' => exact ⟨d, u', rfl⟩
        have hdw : pyWs d = false := head_dropWhile_not pyWs rest hd
        rw [hd]
        simp [pyRstrip, hdw]
      · show pyStrip (pyRstrip (rest.dropWhile pyWs)) = _
        unfold pyStrip pyLstrip
        rw [pyRstrip_idem, dropWhile_pyRstrip_comm, dropWhile_idem]
    · exact absurd h (by simp)

lemma matchChild_some {l cap : PyStr} (h : matchChild l = some cap) :
    cap ≠ [] ∧ pyStrip cap = cap := by
  unfold matchChild at h
  split at h
  · exact matchBullet_some h
  · exact absurd h (by simp)

lemma pyWs_dash : pyWs '-' = false := by decide

lemma pyWs_star : pyWs '*' = false := by decide

lemma specCat_eq (l : PyStr) :
    specCat l = (matchBullet (pyRstrip l)).map pyStrip := by
  match l with
  | [] => rfl
  | c :: t =>
    by_cases hcol : pyRstrip t = [] ∧ pyWs c
    · have hr : pyRstrip (c :: t) = [] := by simp [pyRstrip, hcol.1, hcol.2]
      rw [hr]
      show specCat (c :: t) = none
      rw [specCat, if_neg]
      rintro ⟨hb | hb, -, -⟩ <;> (subst hb; revert hcol)
      · simp [pyWs_dash]
      · simp [pyWs_star]
    · have hne : ¬ (pyRstrip t = [] && pyWs c) = true := by
        simpa [Bool.and_eq_true, decide_eq_true_eq] using hcol
      have hr : pyRstrip (c :: t) = c :: pyRstrip t := by
        simp only [pyRstrip, if_neg hne]
      rw [hr, specCat, matchBullet]
      have hstrip : pyStrip t = (pyRstrip t).dropWhile pyWs := rfl
      by_cases hB : (pyRstrip t).dropWhile pyWs = []
      · have h1 : ¬ ((c = '-' ∨ c = '*') ∧ t.takeWhile pyWs ≠ [] ∧
            pyStrip t ≠ []) := by
          rintro ⟨-, -, h3⟩; exact h3 (hstrip.trans hB)
        have h2 : ¬ ((c = '-' ∨ c = '*') ∧ (pyRstrip t).takeWhile pyWs ≠ [] ∧
            (pyRstrip t).dropWhile pyWs ≠ []) := by
          rintro ⟨-, -, h3⟩; exact h3 hB
        rw [if_neg h1, if_neg h2]
        rfl
      · have htw : (pyRstrip t).takeWhile pyWs = t.takeWhile pyWs :=
          takeWhile_pyRstrip_eq t hB
        by_cases hc2 : (c = '-' ∨ c = '*') ∧ t.takeWhile pyWs ≠ []
        · rw [if_pos ⟨hc2.1, hc2.2, fun hh => hB (hstrip ▸ hh)⟩,
            if_pos ⟨hc2.1, (by rw [htw]; exact hc2.2), hB⟩]
          have hfix : pyRstrip ((pyRstrip t).dropWhile pyWs) =
              (pyRstrip t).dropWhile pyWs := by
            rw [dropWhile_pyRstrip_comm, pyRstrip_idem]
          simp only [Option.map_some']
          rw [hstrip]
          refine congrArg some ?_
          rw [hfix]
          unfold pyStrip pyLstrip
          rw [hfix, dropWhile_idem]
        · have h1 : ¬ ((c = '-' ∨ c = '*') ∧ t.takeWhile pyWs ≠ [] ∧
              pyStrip t ≠ []) := by
            rintro ⟨ha, hb, -⟩; exact hc2 ⟨ha, hb⟩
          have h2 : ¬ ((c = '-' ∨ c = '*') ∧ (pyRstrip t).takeWhile pyWs ≠ [] ∧
              (pyRstrip t).dropWhile pyWs ≠ []) := by
            rintro ⟨ha, hb, -⟩; exact hc2 ⟨ha, htw ▸ hb⟩
          rw [if_neg h1, if_neg h2]
          rfl

lemma specChild_eq (l : PyStr) :
    specChild (fun _ => true) l = (matchChild (pyRstrip l)).map pyStrip := by
  unfold specChild matchChild
  by_cases hr : pyRstrip l = []
  · have hd : l.dropWhile pyWs = [] := dropWhile_nil_of_pyRstrip_nil l hr
    rw [hr, hd]
    have : ¬ (([] : PyStr).takeWhile pyWs).length ≥ 2 := by simp
    rw [if_neg this]
    split
    · rfl
    · rfl
  · have hB : (pyRstrip l).dropWhile pyWs ≠ [] := dropWhile_pyRstrip_ne_nil l hr
    have htw : (pyRstrip l).takeWhile pyWs = l.takeWhile pyWs :=
      takeWhile_pyRstrip_eq l hB
    rw [htw]
    by_cases hlen : (l.takeWhile pyWs).length ≥ 2
    · rw [if_pos (by exact ⟨hlen, by simp⟩), if_pos hlen]
      rw [dropWhile_pyRstrip_comm, specCat_eq]
    · rw [if_neg (fun hh => hlen hh.1), if_neg hlen]
      rfl

lemma textLoop_eq_specScan :
    ∀ (lines : List PyStr) (cur : Option PyStr),
      (∀ c, cur = some c → c ≠ []) →
      textLoop cur lines = specScan (fun _ => true) cur lines := by
  intro lines
  induction lines with
  | nil => intro cur _; rfl
  | cons l rest ih =>
    intro cur hinv
    cases hb : matchBullet (pyRstrip l) with
    | some cap =>
      have hsc : specCat l = some (pyStrip cap) := by
        rw [specCat_eq, hb]; rfl
      have hcap := matchBullet_some hb
      have hne : pyStrip cap ≠ [] := by rw [hcap.2]; exact hcap.1
      simp only [textLoop, specScan, hb, hsc]
      exact ih _ (by rintro c hc; injection hc with hc; subst hc; exact hne)
    | none =>
      have hsc : specCat l = none := by rw [specCat_eq, hb]; rfl
      cases hc : matchChild (pyRstrip l) with
      | some cap =>
        have hsch : specChild (fun _ => true) l = some (pyStrip cap) := by
          rw [specChild_eq, hc]; rfl
        have hcap := matchChild_some hc
        have hne2 : pyStrip cap ≠ [] := by rw [hcap.2]; exact hcap.1
        cases cur with
        | none =>
          simp only [textLoop, specScan, hb, hsc, hc, hsch]
          exact ih _ (by rintro c hc'; cases hc')
        | some c =>
          have hcne : c ≠ [] := hinv c rfl
          simp only [textLoop, specScan, hb, hsc, hc, hsch]
          rw [if_pos hcne, if_pos hne2]
          exact congrArg _ (ih _ hinv)
      | none =>
        have hsch : specChild (fun _ => true) l = none := by
          rw [specChild_eq, hc]; rfl
        cases cur with
        | none =>
          simp only [textLoop, specScan, hb, hsc, hc, hsch]
          exact ih _ (by rintro c hc'; cases hc')
        | some c =>
          simp only [textLoop, specScan, hb, hsc, hc, hsch]
          exact ih _ hinv

/-- C3 (counterexample to the claim as stated).  The claim describes
child lines as "indentation-≥2-spaces bullet lines" and says all other
non-matching lines are ignored, but the source's `child_re` uses
`\s{2,}`, which also accepts tabs: on the input `"- C\n\t\t- N"` the
code emits the pair `("C", "N")` although the second line's indentation
contains no spaces, while the claim's scan (indentation made of space
characters) emits nothing. -/
theorem plain_text_tab_indent_counterexample :
    extract_pairs (.txt (pystr "- C\n\t\t- N")) = [(pystr "C", pystr "N")] ∧
    specScan (fun c => c = ' ') Option.none
        (pySplitlines (pystr "- C\n\t\t- N")) = [] ∧
    [(pystr "C", pystr "N")] ≠ ([] : List (PyStr × PyStr)) := by
  refine ⟨by decide, by decide, by simp⟩

/-- C3 (amended).  Plain-text parsing follows the claimed line scan
once "indentation ≥ 2 spaces" is read as "indentation of ≥ 2 whitespace
characters" (`\s{2,}` in the source): scanning lines in order, an
indentation-0 bullet line sets the current category to its trimmed text,
a whitespace-indented (≥ 2 chars) bullet line appends
(current category, trimmed name) only if a category has been set — so a
child bullet before any category contributes no pair — empty names after
trimming are dropped, and blank and non-matching lines are ignored. -/
theorem plain_text_scan_spec (s : PyStr) :
    extract_pairs (.txt s) =
      specScan (fun _ => true) Option.none (pySplitlines s) :=
  textLoop_eq_specScan (pySplitlines s) Option.none (by rintro c hc; cases hc)

/-!
## Reconciliation lemmas
-/

lemma mem_append_dedupeNew :
    ∀ (derived existing : List (PyStr × PyStr)) (d : PyStr × PyStr),
      d ∈ derived → d ∈ existing ++ dedupeNew existing derived := by
  intro derived
  induction derived with
  | nil => intro existing d hd; cases hd
  | cons e rest ih =>
    intro existing d hd
    rw [dedupeNew]
    by_cases he : e ∈ existing
    · rw [if_pos he]
      rcases List.mem_cons.mp hd with h | h
      · exact List.mem_append_left _ (h ▸ he)
      · exact ih existing d h
    · rw [if_neg he]
      rcases List.mem_cons.mp hd with h | h
      · subst h
        exact List.mem_append_right _ (List.mem_cons_self _ _)
      · have := ih (existing ++ [e]) d h
        rcases List.mem_append.mp this with h' | h'
        · rcases List.mem_append.mp h' with h'' | h''
          · exact List.mem_append_left _ h''
          · refine List.mem_append_right _ ?_
            simp only [List.mem_singleton] at h''
            exact h'' ▸ List.mem_cons_self _ _
        · exact List.mem_append_right _ (List.mem_cons_of_mem _ h')

lemma dedupeNew_eq_nil :
    ∀ (derived existing : List (PyStr × PyStr)),
      (∀ d ∈ derived, d ∈ existing) → dedupeNew existing derived = [] := by
  intro derived
  induction derived with
  | nil => intro existing _; rfl
  | cons e rest ih =>
    intro existing h
    rw [dedupeNew, if_pos (h e (List.mem_cons_self _ _))]
    exact ih existing fun d hd => h d (List.mem_cons_of_mem _ hd)

/-- Characterization of the per-issue loop when every catalog call
returns 200 and every create call succeeds: it returns exactly the
claim-side reconciliation `dedupeNew`, extends the existing set by the
created links, and does not die. -/
lemma processPairs_eq (catalog : PyStr × PyStr → CatalogResp)
    (cs : PyStr → PyStr → Nat) :
    ∀ (pairs existing : List (PyStr × PyStr)),
      (∀ p ∈ pairs, (catalog p).status = 200) →
      (∀ t u, cs t u = 200 ∨ cs t u = 201) →
      processPairs catalog cs pairs existing =
        (dedupeNew existing (derivedPairs catalog pairs),
         existing ++ dedupeNew existing (derivedPairs catalog pairs),
         none) := by
  intro pairs
  induction pairs with
  | nil =>
    intro existing _ _
    simp [processPairs, derivedPairs, dedupeNew]
  | cons p rest ih =>
    intro existing hcat hcs
    obtain ⟨cat, nm⟩ := p
    have h200 : (catalog (cat, nm)).status = 200 :=
      hcat _ (List.mem_cons_self _ _)
    have hrest : ∀ q ∈ rest, (catalog q).status = 200 :=
      fun q hq => hcat q (List.mem_cons_of_mem _ hq)
    rw [processPairs, if_neg (by rw [h200]; exact fun hh => hh rfl)]
    cases hhead : (catalog (cat, nm)).entries.head? with
    | none =>
      have hder : derivedPairs catalog ((cat, nm) :: rest) =
          derivedPairs catalog rest := by
        simp [derivedPairs, hhead]
      rw [hder]
      exact ih existing hrest hcs
    | some oid =>
      have hder : derivedPairs catalog ((cat, nm) :: rest) =
          (mkTitle cat nm, asset_url oid) :: derivedPairs catalog rest := by
        simp [derivedPairs, hhead]
      rw [hder]
      dsimp only
      by_cases hmem : (mkTitle cat nm, asset_url oid) ∈ existing
      · rw [if_pos hmem, dedupeNew, if_pos hmem]
        exact ih existing hrest hcs
      · rw [if_neg hmem]
        have hok : ¬ (cs (mkTitle cat nm) (asset_url oid) ≠ 200 ∧
            cs (mkTitle cat nm) (asset_url oid) ≠ 201) := by
          rcases hcs (mkTitle cat nm) (asset_url oid) with h | h
          · exact fun hh => hh.1 h
          · exact fun hh => hh.2 h
        rw [if_neg hok]
        rw [ih (existing ++ [(mkTitle cat nm, asset_url oid)]) hrest hcs]
        rw [dedupeNew, if_neg hmem]
        simp [List.append_assoc]

/-- C2 (confirmed).  Within-batch reconciliation: when the catalog
calls succeed and link creation succeeds, the per-issue loop creates
exactly the derived (title, url) pairs not already in the existing set,
in input order, updating the existing set after each creation — which is
precisely the claim-side `dedupeNew`, so a duplicate derived pair within
one batch is created at most once — and ends with the existing set
extended by the created links. -/
theorem reconcile_creates_missing (catalog : PyStr × PyStr → CatalogResp)
    (cs : PyStr → PyStr → Nat) (pairs existing : List (PyStr × PyStr))
    (hcat : ∀ p ∈ pairs, (catalog p).status = 200)
    (hcs : ∀ t u, cs t u = 200 ∨ cs t u = 201) :
    processPairs catalog cs pairs existing =
      (dedupeNew existing (derivedPairs catalog pairs),
       existing ++ dedupeNew existing (derivedPairs catalog pairs), none) :=
  processPairs_eq catalog cs pairs existing hcat hcs

theorem reconcile_creates_missing_witness :
    processPairs (fun _ => CatalogResp.mk 200 [pystr "7"]) (fun _ _ => 201)
        [(pystr "A", pystr "1"), (pystr "A", pystr "1")] [] =
      (dedupeNew []
        (derivedPairs (fun _ => CatalogResp.mk 200 [pystr "7"])
          [(pystr "A", pystr "1"), (pystr "A", pystr "1")]),
       [] ++ dedupeNew []
        (derivedPairs (fun _ => CatalogResp.mk 200 [pystr "7"])
          [(pystr "A", pystr "1"), (pystr "A", pystr "1")]),
       none) :=
  reconcile_creates_missing _ _ _ _ (by decide) (fun _ _ => Or.inr rfl)

/-- C1 (confirmed).  Idempotence: (a) if every (title, url) pair
derived from the parsed pairs under the catalog is already in the
existing remote-link set, the run creates zero links and leaves the set
unchanged; (b) running the reconciliation, unioning the created links
into the existing set (which is exactly the second component of
`processPairs`), and running it again on the same pairs creates
nothing. -/
theorem reconcile_idempotent (catalog : PyStr × PyStr → CatalogResp)
    (cs : PyStr → PyStr → Nat) (pairs existing : List (PyStr × PyStr))
    (hcat : ∀ p ∈ pairs, (catalog p).status = 200)
    (hcs : ∀ t u, cs t u = 200 ∨ cs t u = 201) :
    ((∀ d ∈ derivedPairs catalog pairs, d ∈ existing) →
      processPairs catalog cs pairs existing = ([], existing, none)) ∧
    (processPairs catalog cs pairs
        ((processPairs catalog cs pairs existing).2.1)).1 = [] := by
  constructor
  · intro hsub
    rw [processPairs_eq catalog cs pairs existing hcat hcs,
      dedupeNew_eq_nil _ _ hsub]
    simp
  · rw [processPairs_eq catalog cs pairs _ hcat hcs]
    rw [processPairs_eq catalog cs pairs existing hcat hcs]
    dsimp only
    exact dedupeNew_eq_nil _ _ fun d hd => mem_append_dedupeNew _ _ _ hd

theorem reconcile_idempotent_witness :
    (∀ d ∈ derivedPairs (fun _ => CatalogResp.mk 200 [pystr "42"])
        [(pystr "Displays", pystr "11100411")],
      d ∈ [(mkTitle (pystr "Displays") (pystr "11100411"),
            asset_url (pystr "42"))]) ∧
    processPairs (fun _ => CatalogResp.mk 200 [pystr "42"]) (fun _ _ => 201)
        [(pystr "Displays", pystr "11100411")]
        [(mkTitle (pystr "Displays") (pystr "11100411"),
          asset_url (pystr "42"))] =
      ([], [(mkTitle (pystr "Displays") (pystr "11100411"),
             asset_url (pystr "42"))], none) ∧
    (processPairs (fun _ => CatalogResp.mk 200 [pystr "42"]) (fun _ _ => 201)
        [(pystr "Displays", pystr "11100411")]
        ((processPairs (fun _ => CatalogResp.mk 200 [pystr "42"])
            (fun _ _ => 201)
            [(pystr "Displays", pystr "11100411")] []).2.1)).1 = [] := by
  refine ⟨by decide, ?_, ?_⟩
  · exact (reconcile_idempotent _ _ _ _ (by decide)
      (fun _ _ => Or.inr rfl)).1 (by decide)
  · exact (reconcile_idempotent _ _ _ _ (by decide)
      (fun _ _ => Or.inr rfl)).2

/-- C5 (counterexample to the claim as stated).  The claim says the
scanner terminates when a response carries no next-token *or when a page
contains zero issues*, but `enhanced_search` only tests the token
(`if not next_token: break`): fed a zero-issue page that carries a
next-token followed by a page with one issue, the code visits that later
issue, while the claimed scan would have stopped at the empty page and
visited nothing. -/
theorem scanner_empty_page_counterexample :
    enhancedSearchIssues
        [⟨200, ([] : List PyStr), some (pystr "t")⟩,
         ⟨200, [pystr "A"], Option.none⟩] = .ok [pystr "A"] ∧
    scanClaimC5
        [⟨200, ([] : List PyStr), some (pystr "t")⟩,
         ⟨200, [pystr "A"], Option.none⟩] = [] ∧
    ([pystr "A"] : List PyStr) ≠ [] :=
  ⟨rfl, rfl, by simp⟩

/-- C5 (amended).  Pagination termination and coverage: the scanner
terminates exactly when a response carries a falsy next-token (a
zero-issue page with a token does not stop it), and it yields every
issue of every consumed page — all pages up to and including the first
falsy-token page — exactly once, in page order then in-page order. -/
theorem scanner_consumes_until_token_end {α : Type}
    (pages : List (SearchPage α)) (h : ∀ p ∈ pages, p.status = 200) :
    enhancedSearchIssues pages =
      .ok ((consumedPages pages).flatMap SearchPage.issues) := by
  induction pages with
  | nil => rfl
  | cons p rest ih =>
    have hp : p.status = 200 := h p (List.mem_cons_self _ _)
    have hrest : ∀ q ∈ rest, q.status = 200 :=
      fun q hq => h q (List.mem_cons_of_mem _ hq)
    rw [enhancedSearchIssues, consumedPages,
      if_neg (by rw [hp]; exact fun hh => hh rfl)]
    by_cases ht : tokFalsy p.next
    · simp [ht]
    · rw [if_neg (by simpa using ht), if_neg (by simpa using ht), ih hrest]
      simp

theorem scanner_consumes_until_token_end_witness :
    enhancedSearchIssues
        [⟨200, [pystr "A"], some (pystr "t")⟩,
         ⟨200, [pystr "B"], Option.none⟩] =
      .ok ((consumedPages
          [(⟨200, [pystr "A"], some (pystr "t")⟩ : SearchPage PyStr),
           ⟨200, [pystr "B"], Option.none⟩]).flatMap SearchPage.issues) :=
  scanner_consumes_until_token_end _ (by decide)

lemma processPairs_halts_at_bad_lookup (catalog : PyStr × PyStr → CatalogResp)
    (cs : PyStr → PyStr → Nat) (bp : PyStr × PyStr)
    (hbad : (catalog bp).status ≠ 200) :
    ∀ (xs ys ex : List (PyStr × PyStr)),
      (processPairs catalog cs xs ex).2.2 = none →
      processPairs catalog cs (xs ++ bp :: ys) ex =
        ((processPairs catalog cs xs ex).1,
         (processPairs catalog cs xs ex).2.1,
         some "Assets AQL search failed") := by
  intro xs
  induction xs with
  | nil =>
    intro ys ex _
    obtain ⟨c, m⟩ := bp
    simp only [List.nil_append, processPairs]
    rw [if_pos hbad]
  | cons q xs' ih =>
    intro ys ex h
    obtain ⟨c, m⟩ := q
    by_cases hst : (catalog (c, m)).status ≠ 200
    · rw [processPairs, if_pos hst] at h
      simp at h
    · rw [List.cons_append, processPairs, if_neg hst]
      rw [processPairs, if_neg hst] at h
      conv_rhs => rw [processPairs, if_neg hst]
      cases hh : (catalog (c, m)).entries.head? with
      | none =>
        rw [hh] at h
        dsimp only at h ⊢
        exact ih ys ex h
      | some oid =>
        rw [hh] at h
        dsimp only at h ⊢
        by_cases hmem : (mkTitle c m, asset_url oid) ∈ ex
        · simp only [if_pos hmem] at h ⊢
          exact ih ys ex h
        · simp only [if_neg hmem] at h ⊢
          by_cases hcr : cs (mkTitle c m) (asset_url oid) ≠ 200 ∧
              cs (mkTitle c m) (asset_url oid) ≠ 201
          · simp only [if_pos hcr] at h
            simp at h
          · simp only [if_neg hcr] at h ⊢
            rw [ih ys (ex ++ [(mkTitle c m, asset_url oid)]) h]

/-- C7 (confirmed).  Fail-fast on external failure: (1) a non-200
catalog response mid-batch makes the run die at that pair — the result
is exactly the work done before the failing call plus the fatal error,
regardless of the pairs that follow; (2) a failed remote-link creation
(status outside 200/201) likewise dies before any later pair; (3) a
non-200 search response kills the page loop immediately; (4) a non-200
remote-link listing kills the issue loop immediately, regardless of the
issues that follow. -/
theorem fail_fast_halts :
    (∀ (catalog : PyStr × PyStr → CatalogResp) (cs : PyStr → PyStr → Nat)
        (xs ys ex : List (PyStr × PyStr)) (bp : PyStr × PyStr),
      (catalog bp).status ≠ 200 →
      (processPairs catalog cs xs ex).2.2 = none →
      processPairs catalog cs (xs ++ bp :: ys) ex =
        ((processPairs catalog cs xs ex).1,
         (processPairs catalog cs xs ex).2.1,
         some "Assets AQL search failed")) ∧
    (∀ (catalog : PyStr × PyStr → CatalogResp) (cs : PyStr → PyStr → Nat)
        (ys ex : List (PyStr × PyStr)) (cat nm oid : PyStr),
      (catalog (cat, nm)).status = 200 →
      (catalog (cat, nm)).entries.head? = some oid →
      (mkTitle cat nm, asset_url oid) ∉ ex →
      cs (mkTitle cat nm) (asset_url oid) ≠ 200 →
      cs (mkTitle cat nm) (asset_url oid) ≠ 201 →
      processPairs catalog cs ((cat, nm) :: ys) ex =
        ([], ex, some "Failed to create remote link")) ∧
    (∀ (w : World) (p : SearchPage Issue) (ps : List (SearchPage Issue))
        (n : Nat),
      p.status ≠ 200 →
      runPages w (p :: ps) n =
        ([], Option.none, some "Jira enhanced search failed")) ∧
    (∀ (w : World) (i : Issue) (rest : List Issue) (n : Nat),
      passesCheck i = true →
      i.fetchStatus = 200 →
      (extract_pairs (effDesc i)).isEmpty = false →
      i.linksStatus ≠ 200 →
      runIssues w (i :: rest) n =
        ([], n, some "Failed to list remote links")) := by
  refine ⟨?_, ?_, ?_, ?_⟩
  · intro catalog cs xs ys ex bp hbad h
    exact processPairs_halts_at_bad_lookup catalog cs bp hbad xs ys ex h
  · intro catalog cs ys ex cat nm oid h200 hhead hmem h1 h2
    rw [processPairs, if_neg (by rw [h200]; exact fun hh => hh rfl), hhead]
    dsimp only
    rw [if_neg hmem, if_pos ⟨h1, h2⟩]
  · intro w p ps n hp
    simp only [runPages]
    rw [if_pos hp]
  · intro w i rest n hpass hfetch hpairs hlinks
    have hpi : processIssue w i = ([], false, some "Failed to list remote links") := by
      unfold processIssue
      rw [if_neg (by simp [hpass])]
      rw [if_neg (by simp [hfetch])]
      dsimp only
      rw [if_neg (by simp [hpairs]), if_pos hlinks]
    simp only [runIssues, hpi]

theorem fail_fast_halts_witness :
    processPairs (fun _ => CatalogResp.mk 500 []) (fun _ _ => 201)
        ([] ++ (pystr "C", pystr "N") :: []) [] =
      (([] : List (PyStr × PyStr)), ([] : List (PyStr × PyStr)),
        some "Assets AQL search failed") ∧
    processPairs (fun _ => CatalogResp.mk 200 [pystr "9"]) (fun _ _ => 500)
        ((pystr "C", pystr "N") :: []) [] =
      ([], [], some "Failed to create remote link") ∧
    runPages (World.mk [] (fun _ => CatalogResp.mk 200 []) (fun _ _ _ => 201))
        (⟨500, [], Option.none⟩ :: []) 0 =
      ([], Option.none, some "Jira enhanced search failed") ∧
    runIssues (World.mk [] (fun _ => CatalogResp.mk 200 []) (fun _ _ _ => 201))
        (Issue.mk (pystr "PREC-1") (some (pystr "PREC"))
            (some (pystr "Mission/Release")) Option.none
            (Desc.txt (pystr "- C\n  - N")) 200 Desc.none 500 [] :: []) 0 =
      ([], 0, some "Failed to list remote links") := by
  refine ⟨?_, ?_, ?_, ?_⟩
  · have h := fail_fast_halts.1 (fun _ => CatalogResp.mk 500 [])
      (fun _ _ => 201) [] [] [] (pystr "C", pystr "N") (by decide) rfl
    simpa using h
  · exact fail_fast_halts.2.1 (fun _ => CatalogResp.mk 200 [pystr "9"])
      (fun _ _ => 500) [] [] (pystr "C") (pystr "N") (pystr "9")
      rfl rfl (by simp) (by decide) (by decide)
  · exact fail_fast_halts.2.2.1 _ _ _ 0 (by decide)
  · exact fail_fast_halts.2.2.2 _ _ _ 0 (by decide) rfl (by decide) (by decide)

lemma processIssue_ok (w : World) (i : Issue)
    (hcat : ∀ q, (w.catalog q).status = 200)
    (hcs : ∀ t u, w.createStatus i.key t u = 200 ∨
      w.createStatus i.key t u = 201)
    (hf : i.fetchStatus = 200) (hl : i.linksStatus = 200) :
    (processIssue w i).2.1 =
      (passesCheck i && !(extract_pairs (effDesc i)).isEmpty) ∧
    (processIssue w i).2.2 = none := by
  unfold processIssue
  by_cases hp : passesCheck i
  · rw [if_neg (by simp [hp]), if_neg (by simp [hf])]
    dsimp only
    by_cases he : (extract_pairs (effDesc i)).isEmpty
    · rw [if_pos he]
      simp [hp, he]
    · rw [if_neg he, if_neg (by simp [hl])]
      rw [processPairs_eq w.catalog (w.createStatus i.key) _ i.links
        (fun p _ => hcat p) hcs]
      simp [hp, he]
  · rw [if_pos (by simp_all)]
    simp_all

lemma runIssues_ok (w : World)
    (hcat : ∀ q, (w.catalog q).status = 200)
    (hcs : ∀ k t u, w.createStatus k t u = 200 ∨ w.createStatus k t u = 201) :
    ∀ (issues : List Issue) (n : Nat),
      (∀ i ∈ issues, i.fetchStatus = 200 ∧ i.linksStatus = 200) →
      (runIssues w issues n).2.1 =
        n + issues.countP
          (fun i => passesCheck i && !(extract_pairs (effDesc i)).isEmpty) ∧
      (runIssues w issues n).2.2 = none := by
  intro issues
  induction issues with
  | nil => intro n _; simp [runIssues]
  | cons i rest ih =>
    intro n h
    have hmem := h i (List.mem_cons_self _ _)
    have hi := processIssue_ok w i hcat (hcs i.key) hmem.1 hmem.2
    have hrest := fun j hj => h j (List.mem_cons_of_mem _ hj)
    simp only [runIssues]
    rw [hi.2]
    dsimp only
    rw [hi.1]
    obtain ⟨ih1, ih2⟩ := ih (if passesCheck i &&
      !(extract_pairs (effDesc i)).isEmpty then n + 1 else n) hrest
    refine ⟨?_, ih2⟩
    rw [ih1, List.countP_cons]
    by_cases hp : (passesCheck i && !(extract_pairs (effDesc i)).isEmpty) = true
    · rw [if_pos hp, if_pos hp]
      omega
    · rw [if_neg hp, if_neg hp]
      omega

lemma runPages_ok (w : World)
    (hcat : ∀ q, (w.catalog q).status = 200)
    (hcs : ∀ k t u, w.createStatus k t u = 200 ∨ w.createStatus k t u = 201) :
    ∀ (pages : List (SearchPage Issue)) (n : Nat),
      (∀ p ∈ pages, p.status = 200) →
      (∀ p ∈ pages, ∀ i ∈ p.issues,
        i.fetchStatus = 200 ∧ i.linksStatus = 200) →
      (runPages w pages n).2.1 =
        some (n + ((consumedPages pages).flatMap SearchPage.issues).countP
          (fun i => passesCheck i && !(extract_pairs (effDesc i)).isEmpty)) ∧
      (runPages w pages n).2.2 = none := by
  intro pages
  induction pages with
  | nil => intro n _ _; simp [runPages, consumedPages]
  | cons p ps ih =>
    intro n hst hio
    have hp : p.status = 200 := hst p (List.mem_cons_self _ _)
    have hips := hio p (List.mem_cons_self _ _)
    obtain ⟨hr1, hr2⟩ := runIssues_ok w hcat hcs p.issues n hips
    simp only [runPages]
    rw [if_neg (by rw [hp]; exact fun hh => hh rfl), hr2]
    dsimp only
    by_cases ht : tokFalsy p.next
    · rw [if_pos ht, hr1]
      refine ⟨?_, rfl⟩
      rw [consumedPages, if_pos ht]
      simp
    · rw [if_neg (by simpa using ht)]
      obtain ⟨ihs1, ihs2⟩ := ih ((runIssues w p.issues n).2.1)
        (fun q hq => hst q (List.mem_cons_of_mem _ hq))
        (fun q hq => hio q (List.mem_cons_of_mem _ hq))
      dsimp only
      refine ⟨?_, ihs2⟩
      rw [ihs1, hr1, consumedPages, if_neg (by simpa using ht)]
      simp [List.countP_append, Nat.add_assoc]

/-- C8 (counterexample to the claim as stated).  The final summary
line does not count every issue the scanner visits: `total_scanned` is
only incremented at the bottom of the loop body, after the `continue`s
for the local re-check and for a parse miss.  In a world whose single
page holds one issue that fails the project re-check, the scanner visits
one issue but the summary reports zero. -/
theorem summary_count_counterexample :
    (mainRun (World.mk
        [⟨200,
          [Issue.mk (pystr "PREC-1") (some (pystr "OTHER"))
            (some (pystr "Mission/Release")) Option.none
            Desc.none 200 Desc.none 200 []],
          Option.none⟩]
        (fun _ => CatalogResp.mk 200 []) (fun _ _ _ => 201))).2.1 =
      some 0 ∧
    (visitedIssues (World.mk
        [⟨200,
          [Issue.mk (pystr "PREC-1") (some (pystr "OTHER"))
            (some (pystr "Mission/Release")) Option.none
            Desc.none 200 Desc.none 200 []],
          Option.none⟩]
        (fun _ => CatalogResp.mk 200 []) (fun _ _ _ => 201))).length = 1 ∧
    some 0 ≠ some 1 := by
  refine ⟨by decide, by decide, by simp⟩

/-- C8 (amended).  For every run that completes without a fatal
external failure, the summary line reports the number of issues that
were actually processed to the bottom of the loop body: those that pass
the local project/type/status re-check *and* yield at least one parsed
pair.  Issues skipped for a parse miss or for failing the re-check are
visited but not counted. -/
theorem summary_counts_processed_issues (w : World)
    (hpg : ∀ p ∈ w.pages, p.status = 200)
    (hcat : ∀ q, (w.catalog q).status = 200)
    (hcs : ∀ k t u, w.createStatus k t u = 200 ∨ w.createStatus k t u = 201)
    (hio : ∀ p ∈ w.pages, ∀ i ∈ p.issues,
      i.fetchStatus = 200 ∧ i.linksStatus = 200) :
    (mainRun w).2.1 =
      some ((visitedIssues w).countP
        (fun i => passesCheck i && !(extract_pairs (effDesc i)).isEmpty)) ∧
    (mainRun w).2.2 = none := by
  obtain ⟨h1, h2⟩ := runPages_ok w hcat hcs w.pages 0 hpg hio
  unfold mainRun visitedIssues
  rw [h1]
  simp [h2]

theorem summary_counts_processed_issues_witness :
    (mainRun (World.mk
        [⟨200,
          [Issue.mk (pystr "PREC-2") (some (pystr "PREC"))
            (some (pystr "Mission/Release")) Option.none
            (Desc.txt (pystr "- C\n  - N")) 200 Desc.none 200 []],
          Option.none⟩]
        (fun _ => CatalogResp.mk 200 [pystr "7"]) (fun _ _ _ => 201))).2.1 =
      some ((visitedIssues (World.mk
        [⟨200,
          [Issue.mk (pystr "PREC-2") (some (pystr "PREC"))
            (some (pystr "Mission/Release")) Option.none
            (Desc.txt (pystr "- C\n  - N")) 200 Desc.none 200 []],
          Option.none⟩]
        (fun _ => CatalogResp.mk 200 [pystr "7"]) (fun _ _ _ => 201))).countP
        (fun i => passesCheck i && !(extract_pairs (effDesc i)).isEmpty)) :=
  (summary_counts_processed_issues _ (by decide) (fun _ => rfl)
    (fun _ _ _ => Or.inr rfl) (by decide)).1

/-!
## Structured-document parsing lemmas
-/

lemma adfText_mkPara (s : PyStr) :
    adfTextFromParagraph (mkPara s) = pyStrip s := by
  simp [adfTextFromParagraph, mkPara, mkText, AdfNode.type, AdfNode.content,
    AdfNode.text]

lemma nameLoop_mkPara (nm : PyStr) : nameLoop [] [mkPara nm] = pyStrip nm := by
  conv_lhs => rw [nameLoop]
  rw [if_pos (show (mkPara nm).type = "paragraph" from rfl), adfText_mkPara]
  show (if pyStrip nm ≠ [] then pyStrip nm else nameLoop (pyStrip nm) []) =
    pyStrip nm
  by_cases h : pyStrip nm ≠ []
  · rw [if_pos h]
  · rw [if_neg h]; rfl

lemma adfPairsFromList_bullet (content : List AdfNode) :
    adfPairsFromList (.mk "bulletList" content Option.none) =
      content.flatMap fun li =>
        if li.type ≠ "listItem" then []
        else
          if li.content.isEmpty then []
          else
            match (li.content.find? fun ch => ch.type = "paragraph").map
                adfTextFromParagraph with
            | none => []
            | some cat =>
              if cat = [] then []
              else li.content.flatMap fun ch =>
                if ch.type ≠ "bulletList" then []
                else ch.content.flatMap fun subLi =>
                  if subLi.type ≠ "listItem" then []
                  else
                    let name := nameLoop [] subLi.content
                    if name ≠ [] then [(cat, name)] else [] := by
  unfold adfPairsFromList
  rw [if_neg (show ¬ ((AdfNode.mk "bulletList" content Option.none).type ≠
    "bulletList") from by simp [AdfNode.type])]
  rfl

lemma nameItems_pairs (cat : PyStr) :
    ∀ ns : List PyStr, (∀ nm ∈ ns, pyStrip nm ≠ []) →
    ((ns.map mkNameItem).flatMap fun subLi =>
        if subLi.type ≠ "listItem" then []
        else
          let name := nameLoop [] subLi.content
          if name ≠ [] then [(cat, name)] else []) =
      ns.map fun nm => (cat, pyStrip nm) := by
  intro ns
  induction ns with
  | nil => intro _; rfl
  | cons nm rest ih =>
    intro h
    rw [List.map_cons, List.flatMap_cons]
    rw [if_neg (show ¬ ((mkNameItem nm).type ≠ "listItem") from by
      simp [mkNameItem, AdfNode.type])]
    rw [show (mkNameItem nm).content = [mkPara nm] from rfl, nameLoop_mkPara]
    dsimp only
    rw [if_pos (h nm (List.mem_cons_self _ _))]
    rw [ih fun q hq => h q (List.mem_cons_of_mem _ hq)]
    rfl

lemma rowItem_body (r : PyStr × List PyStr) (hc : pyStrip r.1 ≠ [])
    (hns : ∀ nm ∈ r.2, pyStrip nm ≠ []) :
    (if (mkRowItem r).type ≠ "listItem" then []
     else
       if (mkRowItem r).content.isEmpty then []
       else
         match ((mkRowItem r).content.find? fun ch =>
             ch.type = "paragraph").map adfTextFromParagraph with
         | none => []
         | some cat =>
           if cat = [] then []
           else (mkRowItem r).content.flatMap fun ch =>
             if ch.type ≠ "bulletList" then []
             else ch.content.flatMap fun subLi =>
               if subLi.type ≠ "listItem" then []
               else
                 let name := nameLoop [] subLi.content
                 if name ≠ [] then [(cat, name)] else []) =
      r.2.map fun nm => (pyStrip r.1, pyStrip nm) := by
  rw [if_neg (show ¬ ((mkRowItem r).type ≠ "listItem") from by
    simp [mkRowItem, AdfNode.type])]
  rw [if_neg (show ¬ ((mkRowItem r).content.isEmpty = true) from by
    simp [mkRowItem, AdfNode.content])]
  have hfind : ((mkRowItem r).content.find? fun ch =>
      ch.type = "paragraph") = some (mkPara r.1) := by
    simp [mkRowItem, mkPara, mkText, mkNameList, AdfNode.content,
      AdfNode.type, List.find?]
  rw [hfind, Option.map_some', adfText_mkPara]
  dsimp only
  rw [if_neg hc]
  rw [show (mkRowItem r).content = [mkPara r.1, mkNameList r.2] from rfl]
  rw [List.flatMap_cons, List.flatMap_cons, List.flatMap_nil]
  rw [if_pos (show (mkPara r.1).type ≠ "bulletList" from by
    simp [mkPara, AdfNode.type])]
  rw [if_neg (show ¬ ((mkNameList r.2).type ≠ "bulletList") from by
    simp [mkNameList, AdfNode.type])]
  rw [show (mkNameList r.2).content = r.2.map mkNameItem from rfl]
  rw [nameItems_pairs (pyStrip r.1) r.2 hns]
  simp

lemma rowItems_pairs :
    ∀ rows : List (PyStr × List PyStr),
      (∀ r ∈ rows, pyStrip r.1 ≠ [] ∧ ∀ nm ∈ r.2, pyStrip nm ≠ []) →
      adfPairsFromList (.mk "bulletList" (rows.map mkRowItem) Option.none) =
        rows.flatMap fun r => r.2.map fun nm => (pyStrip r.1, pyStrip nm) := by
  intro rows
  induction rows with
  | nil => intro _; rfl
  | cons r rest ih =>
    intro h
    have h1 := h r (List.mem_cons_self _ _)
    rw [List.map_cons, adfPairsFromList_bullet, List.flatMap_cons,
      ← adfPairsFromList_bullet]
    rw [ih fun q hq => h q (List.mem_cons_of_mem _ hq)]
    rw [List.flatMap_cons]
    exact congrArg (· ++ _) (rowItem_body r h1.1 h1.2)

lemma extract_adf_single_bullet (content : List AdfNode) :
    extract_pairs (.adf [.mk "bulletList" content Option.none]) =
      adfPairsFromList (.mk "bulletList" content Option.none) := by
  simp [extract_pairs, AdfNode.type]

/-- C4 (confirmed).  Structured-document parsing, for documents whose
items carry non-blank category and name text: (i) with N top-level items
each having a leading category paragraph and exactly one nested list of
size k_i, the parser returns exactly Σ k_i pairs, in document order,
pairing each nested item's trimmed text with its item's trimmed category;
(ii) a top-level item with no nested list contributes no pairs, whatever
its category text; (iii) multiple nested lists under one item all
contribute names to that item's category, in order. -/
theorem adf_parse_shape :
    (∀ rows : List (PyStr × List PyStr),
      (∀ r ∈ rows, pyStrip r.1 ≠ [] ∧ ∀ nm ∈ r.2, pyStrip nm ≠ []) →
      extract_pairs (mkDoc rows) =
        (rows.flatMap fun r => r.2.map fun nm => (pyStrip r.1, pyStrip nm)) ∧
      (extract_pairs (mkDoc rows)).length =
        (rows.map fun r => r.2.length).sum) ∧
    (∀ c : PyStr,
      extract_pairs (.adf [.mk "bulletList"
        [.mk "listItem" [mkPara c] Option.none] Option.none]) = []) ∧
    (∀ (c : PyStr) (ns₁ ns₂ : List PyStr),
      pyStrip c ≠ [] → (∀ nm ∈ ns₁ ++ ns₂, pyStrip nm ≠ []) →
      extract_pairs (.adf [.mk "bulletList"
        [.mk "listItem" [mkPara c, mkNameList ns₁, mkNameList ns₂]
          Option.none] Option.none]) =
        (ns₁ ++ ns₂).map fun nm => (pyStrip c, pyStrip nm)) := by
  refine ⟨?_, ?_, ?_⟩
  · intro rows h
    have heq : extract_pairs (mkDoc rows) =
        rows.flatMap fun r => r.2.map fun nm => (pyStrip r.1, pyStrip nm) := by
      rw [show mkDoc rows =
        .adf [.mk "bulletList" (rows.map mkRowItem) Option.none] from rfl]
      rw [extract_adf_single_bullet, rowItems_pairs rows h]
    refine ⟨heq, ?_⟩
    rw [heq, List.length_flatMap]
    congr 1
    exact List.map_congr_left fun r _ => by simp
  · intro c
    simp [extract_pairs, adfPairsFromList, mkPara, mkText,
      AdfNode.type, AdfNode.content, List.find?]
  · intro c ns₁ ns₂ hc hns
    rw [extract_adf_single_bullet, adfPairsFromList_bullet,
      List.flatMap_cons, List.flatMap_nil]
    rw [if_neg (show ¬ ((AdfNode.mk "listItem"
      [mkPara c, mkNameList ns₁, mkNameList ns₂] Option.none).type ≠
      "listItem") from by simp [AdfNode.type])]
    rw [if_neg (show ¬ ((AdfNode.mk "listItem"
      [mkPara c, mkNameList ns₁, mkNameList ns₂] Option.none).content.isEmpty
      = true) from by simp [AdfNode.content])]
    have hfind : ((AdfNode.mk "listItem"
        [mkPara c, mkNameList ns₁, mkNameList ns₂]
        Option.none).content.find? fun ch => ch.type = "paragraph") =
        some (mkPara c) := by
      simp [mkPara, mkText, mkNameList, AdfNode.content, AdfNode.type,
        List.find?]
    rw [hfind, Option.map_some', adfText_mkPara]
    dsimp only
    rw [if_neg hc]
    rw [show (AdfNode.mk "listItem" [mkPara c, mkNameList ns₁, mkNameList ns₂]
      Option.none).content = [mkPara c, mkNameList ns₁, mkNameList ns₂]
      from rfl]
    rw [List.flatMap_cons, List.flatMap_cons, List.flatMap_cons,
      List.flatMap_nil]
    rw [if_pos (show (mkPara c).type ≠ "bulletList" from by
      simp [mkPara, AdfNode.type])]
    rw [if_neg (show ¬ ((mkNameList ns₁).type ≠ "bulletList") from by
      simp [mkNameList, AdfNode.type])]
    rw [if_neg (show ¬ ((mkNameList ns₂).type ≠ "bulletList") from by
      simp [mkNameList, AdfNode.type])]
    rw [show (mkNameList ns₁).content = ns₁.map mkNameItem from rfl,
      show (mkNameList ns₂).content = ns₂.map mkNameItem from rfl]
    rw [nameItems_pairs (pyStrip c) ns₁
        fun nm hnm => hns nm (List.mem_append_left _ hnm),
      nameItems_pairs (pyStrip c) ns₂
        fun nm hnm => hns nm (List.mem_append_right _ hnm)]
    simp

theorem adf_parse_shape_witness :
    ((∀ r ∈ [(pystr "Displays", [pystr "11100411", pystr "X"])],
        pyStrip (Prod.fst r) ≠ [] ∧ ∀ nm ∈ r.2, pyStrip nm ≠ []) ∧
      extract_pairs (mkDoc [(pystr "Displays", [pystr "11100411", pystr "X"])]) =
        [(pystr "Displays", pystr "11100411"), (pystr "Displays", pystr "X")] ∧
      (extract_pairs
        (mkDoc [(pystr "Displays", [pystr "11100411", pystr "X"])])).length = 2) ∧
    extract_pairs (.adf [.mk "bulletList"
      [.mk "listItem" [mkPara (pystr "Lonely")] Option.none] Option.none]) =
      [] ∧
    extract_pairs (.adf [.mk "bulletList"
      [.mk "listItem"
        [mkPara (pystr "C"), mkNameList [pystr "a"], mkNameList [pystr "b"]]
        Option.none] Option.none]) =
      [(pystr "C", pystr "a"), (pystr "C", pystr "b")] := by
  refine ⟨⟨by decide, ?_, ?_⟩, ?_, ?_⟩
  · have h := ((adf_parse_shape.1
      [(pystr "Displays", [pystr "11100411", pystr "X"])]) (by decide)).1
    rw [h]
    decide
  · have h := ((adf_parse_shape.1
      [(pystr "Displays", [pystr "11100411", pystr "X"])]) (by decide)).2
    rw [h]
    decide
  · exact adf_parse_shape.2.1 (pystr "Lonely")
  · have h := adf_parse_shape.2.2 (pystr "C") [pystr "a"] [pystr "b"]
      (by decide) (by decide)
    rw [h]
    decide

/-!
## Totality / emptiness and non-emptiness lemmas
-/

lemma textLoop_nil_of_no_child :
    ∀ (lines : List PyStr) (cur : Option PyStr),
      (∀ l ∈ lines, matchChild (pyRstrip l) = none) →
      textLoop cur lines = [] := by
  intro lines
  induction lines with
  | nil => intro cur _; rfl
  | cons l rest ih =>
    intro cur h
    have hl := h l (List.mem_cons_self _ _)
    have hrest := fun q hq => h q (List.mem_cons_of_mem _ hq)
    cases hb : matchBullet (pyRstrip l) with
    | some cap =>
      simp only [textLoop, hb]
      exact ih _ hrest
    | none =>
      simp only [textLoop, hb, hl]
      exact ih _ hrest

lemma extract_adf_nil_of_no_bullet :
    ∀ content : List AdfNode,
      (∀ n ∈ content, n.type ≠ "bulletList") →
      extract_pairs (.adf content) = [] := by
  intro content
  induction content with
  | nil => intro _; rfl
  | cons nd rest ih =>
    intro h
    simp only [extract_pairs, List.flatMap_cons]
    rw [if_neg (h nd (List.mem_cons_self _ _)), List.nil_append]
    exact ih fun q hq => h q (List.mem_cons_of_mem _ hq)

/-- C6 (confirmed).  Parser totality on malformed or empty input: the
empty string parses to no pairs; an empty structured document parses to
no pairs; a structured document none of whose top-level nodes is a
bullet list parses to no pairs; and plain text none of whose lines
matches the child-bullet pattern parses to no pairs.  (`extract_pairs`
is a total function of its input by construction — no input raises.) -/
theorem parser_empty_on_malformed :
    extract_pairs (.txt (pystr "")) = [] ∧
    extract_pairs (.adf []) = [] ∧
    (∀ content : List AdfNode,
      (∀ n ∈ content, n.type ≠ "bulletList") →
      extract_pairs (.adf content) = []) ∧
    (∀ s : PyStr,
      (∀ l ∈ pySplitlines s, matchChild (pyRstrip l) = none) →
      extract_pairs (.txt s) = []) := by
  refine ⟨rfl, rfl, extract_adf_nil_of_no_bullet, ?_⟩
  intro s h
  exact textLoop_nil_of_no_child (pySplitlines s) Option.none h

theorem parser_empty_on_malformed_witness :
    (∀ n ∈ [AdfNode.mk "paragraph" [] Option.none],
      AdfNode.type n ≠ "bulletList") ∧
    extract_pairs (.adf [AdfNode.mk "paragraph" [] Option.none]) = [] ∧
    (∀ l ∈ pySplitlines (pystr "hello\nworld"),
      matchChild (pyRstrip l) = none) ∧
    extract_pairs (.txt (pystr "hello\nworld")) = [] := by
  refine ⟨by decide, parser_empty_on_malformed.2.2.1 _ (by decide), by decide,
    parser_empty_on_malformed.2.2.2 _ (by decide)⟩

/-- C10 (confirmed).  A description value that is neither a
structured-document dict nor a string (`Desc.none` covers `None` and any
other such value, all of which the source coerces to `""`) parses to the
empty list of pairs. -/
theorem extract_pairs_non_dict_non_str : extract_pairs Desc.none = [] := rfl

lemma pyStrip_idem (s : PyStr) : pyStrip (pyStrip s) = pyStrip s := by
  unfold pyStrip pyLstrip
  rw [← dropWhile_pyRstrip_comm, pyRstrip_idem, dropWhile_idem]

lemma adfText_strip (n : AdfNode) :
    pyStrip (adfTextFromParagraph n) = adfTextFromParagraph n := by
  unfold adfTextFromParagraph
  split
  · rfl
  · exact pyStrip_idem _

lemma nameLoop_strip :
    ∀ (l : List AdfNode) (name : PyStr), pyStrip name = name →
      pyStrip (nameLoop name l) = nameLoop name l := by
  intro l
  induction l with
  | nil => intro name h; exact h
  | cons ch rest ih =>
    intro name h
    by_cases hch : ch.type = "paragraph"
    · simp only [nameLoop, if_pos hch]
      by_cases hn : adfTextFromParagraph ch ≠ []
      · rw [if_pos hn]
        exact adfText_strip ch
      · rw [if_neg hn]
        exact ih _ (adfText_strip ch)
    · simp only [nameLoop, if_neg hch]
      exact ih name h

lemma adfPairs_nonempty (nd : AdfNode) (p : PyStr × PyStr)
    (hp : p ∈ adfPairsFromList nd) :
    pyStrip p.1 ≠ [] ∧ pyStrip p.2 ≠ [] := by
  unfold adfPairsFromList at hp
  split at hp
  · cases hp
  · rw [List.mem_flatMap] at hp
    obtain ⟨li, -, hp⟩ := hp
    split at hp
    · cases hp
    · dsimp only at hp
      split at hp
      · cases hp
      · split at hp
        · cases hp
        · rename_i cat heq
          split at hp
          · cases hp
          · rename_i hcat
            rw [List.mem_flatMap] at hp
            obtain ⟨ch, -, hp⟩ := hp
            split at hp
            · cases hp
            · rw [List.mem_flatMap] at hp
              obtain ⟨subLi, -, hp⟩ := hp
              split at hp
              · cases hp
              · split at hp
                · rename_i hname
                  rw [List.mem_singleton] at hp
                  subst hp
                  have hcs : pyStrip cat = cat := by
                    rcases Option.map_eq_some'.mp heq with ⟨pr, -, hpr⟩
                    rw [← hpr]
                    exact adfText_strip pr
                  have hns : pyStrip (nameLoop [] subLi.content) =
                      nameLoop [] subLi.content :=
                    nameLoop_strip subLi.content [] rfl
                  exact ⟨by rw [hcs]; exact hcat, by rw [hns]; exact hname⟩
                · cases hp

lemma textLoop_pairs_nonempty :
    ∀ (lines : List PyStr) (cur : Option PyStr),
      (∀ c, cur = some c → pyStrip c = c ∧ c ≠ []) →
      ∀ p ∈ textLoop cur lines, pyStrip p.1 ≠ [] ∧ pyStrip p.2 ≠ [] := by
  intro lines
  induction lines with
  | nil =>
    intro cur _ p hp
    simp [textLoop] at hp
  | cons l rest ih =>
    intro cur hinv p hp
    cases hb : matchBullet (pyRstrip l) with
    | some cap =>
      simp only [textLoop, hb] at hp
      have hcap := matchBullet_some hb
      refine ih _ ?_ p hp
      rintro c hc
      injection hc with hc
      subst hc
      exact ⟨by rw [hcap.2, hcap.2], by rw [hcap.2]; exact hcap.1⟩
    | none =>
      cases hc : matchChild (pyRstrip l) with
      | none =>
        simp only [textLoop, hb, hc] at hp
        cases cur with
        | none => exact ih _ hinv p hp
        | some c => exact ih _ hinv p hp
      | some cap =>
        cases cur with
        | none =>
          simp only [textLoop, hb, hc] at hp
          exact ih _ (by rintro c hc'; cases hc') p hp
        | some c =>
          have hcprop := hinv c rfl
          have hcap := matchChild_some hc
          have hne2 : pyStrip cap ≠ [] := by rw [hcap.2]; exact hcap.1
          simp only [textLoop, hb, hc] at hp
          rw [if_pos hcprop.2, if_pos hne2] at hp
          rcases List.mem_cons.mp hp with h | h
          · subst h
            refine ⟨?_, ?_⟩
            · rw [hcprop.1]; exact hcprop.2
            · show pyStrip (pyStrip cap) ≠ []
              rw [hcap.2, hcap.2]
              exact hcap.1
          · exact ih _ hinv p h

/-- C9 (confirmed).  Implicit invariant: every (category, name) pair
returned by the parser — on structured-document, plain-text, and
non-string inputs alike — has a non-empty category and a non-empty name
after whitespace trimming; in particular a child bullet under a category
that is empty after trimming contributes no pair. -/
theorem parser_pairs_nonempty (desc : Desc) (p : PyStr × PyStr)
    (hp : p ∈ extract_pairs desc) :
    pyStrip p.1 ≠ [] ∧ pyStrip p.2 ≠ [] := by
  match desc with
  | .none =>
    rw [show extract_pairs Desc.none = [] from rfl] at hp
    cases hp
  | .txt s =>
    exact textLoop_pairs_nonempty (pySplitlines s) Option.none
      (by rintro c hc; cases hc) p hp
  | .adf content =>
    simp only [extract_pairs, List.mem_flatMap] at hp
    obtain ⟨nd, -, hp⟩ := hp
    split at hp
    · exact adfPairs_nonempty nd p hp
    · cases hp

theorem parser_pairs_nonempty_witness :
    (pystr "C", pystr "N") ∈ extract_pairs (.txt (pystr "- C\n  - N")) ∧
    pyStrip (pystr "C") ≠ [] ∧ pyStrip (pystr "N") ≠ [] := by
  refine ⟨by decide, ?_⟩
  exact parser_pairs_nonempty (.txt (pystr "- C\n  - N"))
    (pystr "C", pystr "N") (by decide)
